import Mathlib

/-!
Verification of the meme-trader bot core (src/bot.py) against its
natural-language specification.

Shallow embedding conventions:
* Addresses and token symbols are opaque identifiers, modelled as `Nat`.
* Python floats are modelled as exact rationals `ℚ`; integer amounts as `ℤ`.
* `bot.state.buys` (a Python dict keyed by symbol) is modelled as an
  association list with dict semantics: insertion overwrites in place,
  `pop` removes the entry, lookup finds the unique entry for a key.
* External collaborators (reserves reader, sentiment model, signer) are
  modelled as inputs to the handlers; the handlers record their externally
  visible effects (sentiment call, transaction submission, removals) so
  that frame/ordering claims can be stated.
-/

abbrev Symb := Nat
abbrev Addr := Nat

/-- The `Buy` pydantic model of bot.py: an open position. -/
structure Buy where
  price : ℚ
  amount : ℤ
  boughtAt : ℕ
  tokenAddress : Addr
  pairAddress : Addr
  deriving DecidableEq, Repr

abbrev Buys := List (Symb × Buy)

/-- Dict lookup `d.get(sym)` on an association list. -/
def lookupKey {α : Type} (l : List (Symb × α)) (sym : Symb) : Option α :=
  (l.find? (fun p => p.1 == sym)).map Prod.snd

/-- Dict removal `d.pop(sym)`: drop the entry with the given key. -/
def popKey {α : Type} (l : List (Symb × α)) (sym : Symb) : List (Symb × α) :=
  l.filter (fun p => !(p.1 == sym))

/-- Dict insertion `d[sym] = a`: overwrite in place if present, else append. -/
def insertKey {α : Type} (l : List (Symb × α)) (sym : Symb) (a : α) : List (Symb × α) :=
  if (l.find? (fun p => p.1 == sym)).isSome then
    l.map (fun p => if p.1 = sym then (sym, a) else p)
  else
    l ++ [(sym, a)]

/-- Python `int()` applied to a rational: truncation toward zero. -/
def pyInt (q : ℚ) : ℤ :=
  if 0 ≤ q then Int.floor q else Int.ceil q

/-! ## The `buy` handler (PairCreated event) -/

/-- A configured signer as the `buy` handler sees it: its base-currency
balance (`bot.signer.balance`) and the counter-token balance observed by
`token.balanceOf(bot.signer)` after the swap executed. -/
structure BuySigner where
  balance : ℤ
  postTokenBalance : ℤ

/-- Environment of one `buy` invocation: collaborator responses and config. -/
structure BuyEnv where
  weth : Addr
  tokenSymbol : Symb
  decimals : ℕ
  reserve0 : ℤ
  reserve1 : ℤ
  ratio : ℚ
  now : ℕ
  signer : Option BuySigner

/-- The fields of a `PairCreated` log used by the handler. -/
structure PairLog where
  token0 : Addr
  token1 : Addr
  pair : Addr

/-- Result of one `buy` invocation: the new `bot.state.buys`, whether the
sentiment model was called, whether a transaction was submitted, and the
handler's return value. -/
structure BuyResult where
  buys : Buys
  sentimentCalled : Bool
  txSubmitted : Bool
  ret : Option (Symb × ℚ)
  deriving DecidableEq

/-- Shallow embedding of the `buy` handler of bot.py (lines 65-141). -/
def buyHandler (env : BuyEnv) (log : PairLog) (buys : Buys) : BuyResult :=
  if log.token0 ≠ env.weth then
    -- Not using WETH as base token
    ⟨buys, false, false, none⟩
  else
    let currentPrice : ℚ := (env.reserve0 : ℚ) / (env.reserve1 : ℚ)
    if env.ratio = 0 then
      -- Meme is a dud, drop it
      ⟨buys, true, false, none⟩
    else
      match env.signer with
      | none =>
        -- Monitoring mode: simulate a buy of one decimal-adjusted unit
        ⟨insertKey buys env.tokenSymbol
          ⟨currentPrice, 10 ^ env.decimals, env.now, log.token1, log.pair⟩,
         true, false, none⟩
      | some s =>
        let purchaseAmount : ℤ := pyInt (env.ratio * (s.balance : ℚ))
        let tokenBalance : ℤ := s.postTokenBalance
        let buyPrice : ℚ :=
          (tokenBalance : ℚ) / ((10 : ℚ) ^ env.decimals) / (purchaseAmount : ℚ)
        ⟨insertKey buys env.tokenSymbol
          ⟨buyPrice, purchaseAmount, env.now, log.token1, log.pair⟩,
         true, true, some (env.tokenSymbol, buyPrice)⟩

/-! ## The `pnl` handler (per-block tick) -/

/-- A configured signer as the `pnl` handler sees it: token balances,
LP-token allowances, and whether the submitted exit transaction failed. -/
structure TickSigner where
  balanceOf : Addr → ℤ
  allowance : Addr → ℤ
  txFailed : Bool

/-- Environment of one `pnl` invocation: the batched reserves read
(as a function of the pair address) and the optional signer. -/
structure TickEnv where
  reserves : Addr → ℤ × ℤ
  signer : Option TickSigner

/-- Externally visible events of one `pnl` invocation, in execution order. -/
inductive Event where
  | oracleRead
  | dropRemoved (sym : Symb)
  | swapPopped (sym : Symb)
  | approveCalled (sym : Symb)
  | planAppended (sym : Symb)
  | txSubmit
  deriving DecidableEq, Repr

/-- Current spot price of a position's pool: `reserve0 / reserve1`. -/
def cpOf (env : TickEnv) (b : Buy) : ℚ :=
  ((env.reserves b.pairAddress).1 : ℚ) / ((env.reserves b.pairAddress).2 : ℚ)

/-- `pnl = (current_price - buy.price) / buy.price` (bot.py line 162). -/
def pnlOf (currentPrice entryPrice : ℚ) : ℚ :=
  (currentPrice - entryPrice) / entryPrice

/-- `tokens_to_swap`: positions whose pnl exceeds 1000.0 ("steel hands"). -/
def tokensToSwapOf (env : TickEnv) (buys : Buys) : Buys :=
  buys.filter (fun p => decide (pnlOf (cpOf env p.2) p.2.price > 1000))

/-- `tokens_to_drop`: positions reaching the `elif pnl < 99.0` branch. -/
def tokensToDropOf (env : TickEnv) (buys : Buys) : List Symb :=
  (buys.filter (fun p =>
    decide (¬ pnlOf (cpOf env p.2) p.2.price > 1000 ∧
            pnlOf (cpOf env p.2) p.2.price < 99))).map Prod.fst

/-- `current_prices` as first populated: every open position's spot price. -/
def currentPricesOf (env : TickEnv) (buys : Buys) : List (Symb × ℚ) :=
  buys.map (fun p => (p.1, cpOf env p.2))

/-- Mutable state of the sell-plan loop (bot.py lines 178-207). -/
structure SwapLoopState where
  buys : Buys
  prices : List (Symb × ℚ)
  planSyms : List Symb
  trace : List Event

/-- One iteration of the sell-plan loop: pop the position, skip on zero
balance, otherwise approve if the allowance is short and append the swap
(also popping the symbol from `current_prices`). -/
def swapStep (s : TickSigner) (acc : SwapLoopState) (e : Symb × Buy) : SwapLoopState :=
  let buys1 := popKey acc.buys e.1
  let tr1 := acc.trace ++ [Event.swapPopped e.1]
  let bal := s.balanceOf e.2.tokenAddress
  if bal = 0 then
    ⟨buys1, acc.prices, acc.planSyms, tr1⟩
  else
    let tr2 := if s.allowance e.2.pairAddress < bal then
                 tr1 ++ [Event.approveCalled e.1]
               else tr1
    ⟨buys1, popKey acc.prices e.1, acc.planSyms ++ [e.1],
     tr2 ++ [Event.planAppended e.1]⟩

/-- Result of one `pnl` invocation: new `bot.state.buys`, the event trace,
and the outcome (`Except.error ()` models the re-raise on a failed exit
transaction; `Except.ok none` models a bare `return`). -/
structure PnlResult where
  buys : Buys
  trace : List Event
  ret : Except Unit (Option (List (Symb × ℚ)))

/-- Shallow embedding of the `pnl` handler of bot.py (lines 144-225). -/
def pnlHandler (env : TickEnv) (buys : Buys) : PnlResult :=
  if buys = [] then
    -- "No buys yet"
    ⟨buys, [], Except.ok none⟩
  else
    let currentPrices := currentPricesOf env buys
    let toSwap := tokensToSwapOf env buys
    let toDrop := tokensToDropOf env buys
    let buys1 := toDrop.foldl popKey buys
    let trace1 := Event.oracleRead :: toDrop.map Event.dropRemoved
    match env.signer with
    | none => ⟨buys1, trace1, Except.ok (some currentPrices)⟩
    | some s =>
      if toSwap = [] then
        ⟨buys1, trace1, Except.ok (some currentPrices)⟩
      else
        let final := toSwap.foldl (swapStep s) ⟨buys1, currentPrices, [], trace1⟩
        let trace2 := final.trace ++ [Event.txSubmit]
        if s.txFailed then
          ⟨final.buys, trace2, Except.error ()⟩
        else
          ⟨final.buys, trace2, Except.ok (some final.prices)⟩

/-! ## Association-list lemmas -/

theorem lookupKey_nil {α : Type} (sym : Symb) : lookupKey ([] : List (Symb × α)) sym = none :=
  rfl

theorem lookupKey_cons {α : Type} (p : Symb × α) (t : List (Symb × α)) (sym : Symb) :
    lookupKey (p :: t) sym = if p.1 = sym then some p.2 else lookupKey t sym := by
  by_cases h : p.1 = sym
  · rw [lookupKey, List.find?_cons_of_pos _ (by simpa using h)]
    simp [h]
  · rw [lookupKey, List.find?_cons_of_neg _ (by simpa using h), if_neg h]
    rfl

theorem popKey_nil {α : Type} (sym : Symb) : popKey ([] : List (Symb × α)) sym = [] :=
  rfl

theorem popKey_cons {α : Type} (p : Symb × α) (t : List (Symb × α)) (sym : Symb) :
    popKey (p :: t) sym = if p.1 = sym then popKey t sym else p :: popKey t sym := by
  by_cases h : p.1 = sym
  · rw [popKey, List.filter_cons_of_neg (by simpa using h), if_pos h]
    rfl
  · rw [popKey, List.filter_cons_of_pos (by simpa using h), if_neg h]
    rfl

theorem lookupKey_popKey_self {α : Type} (l : List (Symb × α)) (sym : Symb) :
    lookupKey (popKey l sym) sym = none := by
  induction l with
  | nil => rfl
  | cons p t ih =>
    rw [popKey_cons]
    by_cases h : p.1 = sym
    · rw [if_pos h]; exact ih
    · rw [if_neg h, lookupKey_cons, if_neg h]; exact ih

theorem lookupKey_popKey_ne {α : Type} (l : List (Symb × α)) (s1 s2 : Symb)
    (h : s1 ≠ s2) : lookupKey (popKey l s2) s1 = lookupKey l s1 := by
  induction l with
  | nil => rfl
  | cons p t ih =>
    rw [popKey_cons]
    by_cases hp : p.1 = s2
    · have hp1 : ¬ p.1 = s1 := by rw [hp]; exact fun hh => h hh.symm
      rw [if_pos hp, lookupKey_cons, if_neg hp1]; exact ih
    · rw [if_neg hp, lookupKey_cons, lookupKey_cons]
      by_cases hq : p.1 = s1
      · rw [if_pos hq, if_pos hq]
      · rw [if_neg hq, if_neg hq]; exact ih

theorem lookupKey_foldPop_of_none {α : Type} (syms : List Symb) (l : List (Symb × α))
    (sym : Symb) (h : lookupKey l sym = none) :
    lookupKey (syms.foldl popKey l) sym = none := by
  induction syms generalizing l with
  | nil => exact h
  | cons a t ih =>
    simp only [List.foldl_cons]
    apply ih
    by_cases ha : sym = a
    · subst ha; exact lookupKey_popKey_self l sym
    · rw [lookupKey_popKey_ne l sym a ha]; exact h

theorem lookupKey_foldPop_of_mem {α : Type} (syms : List Symb) (l : List (Symb × α))
    (sym : Symb) (h : sym ∈ syms) :
    lookupKey (syms.foldl popKey l) sym = none := by
  induction syms generalizing l with
  | nil => cases h
  | cons a t ih =>
    simp only [List.foldl_cons]
    by_cases ha : sym = a
    · subst ha
      exact lookupKey_foldPop_of_none t _ sym (lookupKey_popKey_self l sym)
    · have ht : sym ∈ t := by
        cases List.mem_cons.mp h with
        | inl hh => exact absurd hh ha
        | inr hh => exact hh
      exact ih _ ht

theorem lookupKey_foldPop_of_not_mem {α : Type} (syms : List Symb) (l : List (Symb × α))
    (sym : Symb) (h : sym ∉ syms) :
    lookupKey (syms.foldl popKey l) sym = lookupKey l sym := by
  induction syms generalizing l with
  | nil => rfl
  | cons a t ih =>
    simp only [List.foldl_cons]
    have h1 : sym ≠ a := fun hh => h (by simp [hh])
    have h2 : sym ∉ t := fun hh => h (by simp [hh])
    rw [ih _ h2, lookupKey_popKey_ne l sym a h1]

theorem lookupKey_map_overwrite {α : Type} (l : List (Symb × α)) (sym : Symb) (a : α)
    (hmem : ∃ q ∈ l, q.1 = sym) :
    lookupKey (l.map (fun p => if p.1 = sym then (sym, a) else p)) sym = some a := by
  induction l with
  | nil => simp at hmem
  | cons p t ih =>
    by_cases hp : p.1 = sym
    · simp only [List.map_cons, if_pos hp]
      rw [lookupKey_cons]
      simp
    · simp only [List.map_cons, if_neg hp]
      rw [lookupKey_cons, if_neg hp]
      apply ih
      rcases hmem with ⟨q, hq, hqs⟩
      cases List.mem_cons.mp hq with
      | inl hh => exact absurd (hh ▸ hqs) hp
      | inr hh => exact ⟨q, hh, hqs⟩

theorem lookupKey_append_single {α : Type} (l : List (Symb × α)) (sym : Symb) (a : α)
    (hall : ∀ q ∈ l, ¬ q.1 = sym) :
    lookupKey (l ++ [(sym, a)]) sym = some a := by
  induction l with
  | nil => rw [List.nil_append, lookupKey_cons]; simp
  | cons p t ih =>
    have hp : ¬ p.1 = sym := hall p (List.mem_cons_self p t)
    rw [List.cons_append, lookupKey_cons, if_neg hp]
    exact ih (fun q hq => hall q (List.mem_cons_of_mem p hq))

theorem lookupKey_insertKey_self {α : Type} (l : List (Symb × α)) (sym : Symb) (a : α) :
    lookupKey (insertKey l sym a) sym = some a := by
  by_cases h : (l.find? (fun p => p.1 == sym)).isSome
  · rw [insertKey, if_pos h]
    apply lookupKey_map_overwrite
    rcases List.find?_isSome.mp h with ⟨q, hq, hqs⟩
    exact ⟨q, hq, by simpa using hqs⟩
  · rw [insertKey, if_neg h]
    apply lookupKey_append_single
    intro q hq
    have hnone : l.find? (fun p => p.1 == sym) = none := by
      cases hf : l.find? (fun p => p.1 == sym) with
      | none => rfl
      | some v => rw [hf] at h; simp at h
    have := List.find?_eq_none.mp hnone q hq
    simpa using this

theorem lookupKey_map_of_mem {α β : Type} (l : List (Symb × α)) (sym : Symb) (b : α)
    (f : α → β) (hnd : (l.map Prod.fst).Nodup) (hmem : (sym, b) ∈ l) :
    lookupKey (l.map (fun p => (p.1, f p.2))) sym = some (f b) := by
  induction l with
  | nil => cases hmem
  | cons p t ih =>
    have hnd2 : (t.map Prod.fst).Nodup := (List.nodup_cons.mp (by simpa using hnd)).2
    have hnotin : p.1 ∉ t.map Prod.fst := (List.nodup_cons.mp (by simpa using hnd)).1
    simp only [List.map_cons]
    rw [lookupKey_cons]
    cases List.mem_cons.mp hmem with
    | inl hh =>
      subst hh
      simp
    | inr hh =>
      by_cases hp : p.1 = sym
      · exfalso
        apply hnotin
        rw [hp]
        exact List.mem_map.mpr ⟨(sym, b), hh, rfl⟩
      · rw [if_neg hp]
        exact ih hnd2 hh

/-! ## Sell-plan loop lemmas -/

/-- The events one iteration of the sell-plan loop emits. -/
def stepEvents (s : TickSigner) (e : Symb × Buy) : List Event :=
  let bal := s.balanceOf e.2.tokenAddress
  if bal = 0 then
    [Event.swapPopped e.1]
  else
    (if s.allowance e.2.pairAddress < bal then
       [Event.swapPopped e.1, Event.approveCalled e.1]
     else
       [Event.swapPopped e.1]) ++ [Event.planAppended e.1]

theorem swapStep_buys (s : TickSigner) (acc : SwapLoopState) (e : Symb × Buy) :
    (swapStep s acc e).buys = popKey acc.buys e.1 := by
  simp only [swapStep]
  split
  · rfl
  · rfl

theorem swapFold_buys (s : TickSigner) (l : Buys) (acc : SwapLoopState) :
    (l.foldl (swapStep s) acc).buys = (l.map Prod.fst).foldl popKey acc.buys := by
  induction l generalizing acc with
  | nil => rfl
  | cons e t ih =>
    simp only [List.foldl_cons, List.map_cons, ih, swapStep_buys]

theorem swapStep_prices (s : TickSigner) (acc : SwapLoopState) (e : Symb × Buy) :
    (swapStep s acc e).prices =
      if s.balanceOf e.2.tokenAddress = 0 then acc.prices
      else popKey acc.prices e.1 := by
  simp only [swapStep]
  split
  · rfl
  · rfl

theorem swapFold_prices (s : TickSigner) (l : Buys) (acc : SwapLoopState) :
    (l.foldl (swapStep s) acc).prices =
      ((l.filter (fun e => !(s.balanceOf e.2.tokenAddress == 0))).map Prod.fst).foldl
        popKey acc.prices := by
  induction l generalizing acc with
  | nil => rfl
  | cons e t ih =>
    by_cases hb : s.balanceOf e.2.tokenAddress = 0
    · rw [List.foldl_cons, List.filter_cons_of_neg (by simpa using hb), ih]
      rw [swapStep_prices, if_pos hb]
    · rw [List.foldl_cons, List.filter_cons_of_pos (by simpa using hb), ih]
      rw [List.map_cons, List.foldl_cons, swapStep_prices, if_neg hb]

theorem swapStep_trace (s : TickSigner) (acc : SwapLoopState) (e : Symb × Buy) :
    (swapStep s acc e).trace = acc.trace ++ stepEvents s e := by
  simp only [swapStep, stepEvents]
  split
  · rfl
  · split
    · simp
    · simp

theorem swapFold_trace (s : TickSigner) (l : Buys) (acc : SwapLoopState) :
    (l.foldl (swapStep s) acc).trace = acc.trace ++ (l.map (stepEvents s)).flatten := by
  induction l generalizing acc with
  | nil => simp
  | cons e t ih =>
    rw [List.foldl_cons, ih, swapStep_trace, List.map_cons, List.flatten_cons,
      List.append_assoc]

theorem txSubmit_not_mem_stepEvents (s : TickSigner) (e : Symb × Buy) :
    Event.txSubmit ∉ stepEvents s e := by
  simp only [stepEvents]
  split
  · simp
  · split
    · simp
    · simp

theorem txSubmit_not_mem_flatten (s : TickSigner) (l : Buys) :
    Event.txSubmit ∉ (l.map (stepEvents s)).flatten := by
  intro h
  rcases List.mem_flatten.mp h with ⟨tl, htl, hmem⟩
  rcases List.mem_map.mp htl with ⟨e, _, rfl⟩
  exact txSubmit_not_mem_stepEvents s e hmem

theorem planAppended_mem_stepEvents (s : TickSigner) (e : Symb × Buy) (sym : Symb) :
    Event.planAppended sym ∈ stepEvents s e ↔
      ¬ s.balanceOf e.2.tokenAddress = 0 ∧ sym = e.1 := by
  simp only [stepEvents]
  by_cases hb : s.balanceOf e.2.tokenAddress = 0
  · simp [hb]
  · by_cases ha : s.allowance e.2.pairAddress < s.balanceOf e.2.tokenAddress
    · simp [hb, ha]
    · simp [hb, ha]

theorem planAppended_mem_flatten (s : TickSigner) (l : Buys) (sym : Symb) :
    Event.planAppended sym ∈ (l.map (stepEvents s)).flatten ↔
      sym ∈ (l.filter (fun e => !(s.balanceOf e.2.tokenAddress == 0))).map Prod.fst := by
  constructor
  · intro h
    rcases List.mem_flatten.mp h with ⟨tl, htl, hmem⟩
    rcases List.mem_map.mp htl with ⟨e, he, rfl⟩
    rcases (planAppended_mem_stepEvents s e sym).mp hmem with ⟨hb, rfl⟩
    exact List.mem_map.mpr ⟨e, List.mem_filter.mpr ⟨he, by simpa using hb⟩, rfl⟩
  · intro h
    rcases List.mem_map.mp h with ⟨e, he, rfl⟩
    rcases List.mem_filter.mp he with ⟨he2, hb⟩
    apply List.mem_flatten.mpr
    refine ⟨stepEvents s e, List.mem_map.mpr ⟨e, he2, rfl⟩, ?_⟩
    exact (planAppended_mem_stepEvents s e e.1).mpr ⟨by simpa using hb, rfl⟩

theorem dropRemoved_not_mem_stepEvents (s : TickSigner) (e : Symb × Buy) (sym : Symb) :
    Event.dropRemoved sym ∉ stepEvents s e := by
  simp only [stepEvents]
  split
  · simp
  · split
    · simp
    · simp

/-! ## `pnlHandler` branch characterizations -/

theorem pnlHandler_monitoring (env : TickEnv) (buys : Buys)
    (hne : buys ≠ []) (hs : env.signer = none) :
    pnlHandler env buys =
      ⟨(tokensToDropOf env buys).foldl popKey buys,
       Event.oracleRead :: (tokensToDropOf env buys).map Event.dropRemoved,
       Except.ok (some (currentPricesOf env buys))⟩ := by
  simp only [pnlHandler, hs, if_neg hne]

theorem pnlHandler_live_noswap (env : TickEnv) (buys : Buys) (s : TickSigner)
    (hne : buys ≠ []) (hs : env.signer = some s)
    (hsw : tokensToSwapOf env buys = []) :
    pnlHandler env buys =
      ⟨(tokensToDropOf env buys).foldl popKey buys,
       Event.oracleRead :: (tokensToDropOf env buys).map Event.dropRemoved,
       Except.ok (some (currentPricesOf env buys))⟩ := by
  simp only [pnlHandler, hs, if_neg hne, if_pos hsw]

theorem pnlHandler_live_swap (env : TickEnv) (buys : Buys) (s : TickSigner)
    (hne : buys ≠ []) (hs : env.signer = some s)
    (hsw : tokensToSwapOf env buys ≠ []) :
    pnlHandler env buys =
      ⟨((tokensToSwapOf env buys).foldl (swapStep s)
          ⟨(tokensToDropOf env buys).foldl popKey buys, currentPricesOf env buys, [],
           Event.oracleRead :: (tokensToDropOf env buys).map Event.dropRemoved⟩).buys,
       ((tokensToSwapOf env buys).foldl (swapStep s)
          ⟨(tokensToDropOf env buys).foldl popKey buys, currentPricesOf env buys, [],
           Event.oracleRead :: (tokensToDropOf env buys).map Event.dropRemoved⟩).trace
         ++ [Event.txSubmit],
       if s.txFailed then Except.error ()
       else Except.ok (some ((tokensToSwapOf env buys).foldl (swapStep s)
          ⟨(tokensToDropOf env buys).foldl popKey buys, currentPricesOf env buys, [],
           Event.oracleRead :: (tokensToDropOf env buys).map Event.dropRemoved⟩).prices)⟩ := by
  simp only [pnlHandler, hs, if_neg hne, if_neg hsw]
  split
  · rfl
  · rfl

/-! ## Classification and uniqueness lemmas -/

theorem mem_tokensToSwapOf (env : TickEnv) (buys : Buys) (sym : Symb) (b : Buy)
    (hmem : (sym, b) ∈ buys) (h : pnlOf (cpOf env b) b.price > 1000) :
    (sym, b) ∈ tokensToSwapOf env buys :=
  List.mem_filter.mpr ⟨hmem, by simpa using h⟩

theorem mem_tokensToDropOf (env : TickEnv) (buys : Buys) (sym : Symb) (b : Buy)
    (hmem : (sym, b) ∈ buys) (h : pnlOf (cpOf env b) b.price < 99) :
    sym ∈ tokensToDropOf env buys := by
  have h1000 : ¬ pnlOf (cpOf env b) b.price > 1000 := by linarith
  exact List.mem_map.mpr
    ⟨(sym, b), List.mem_filter.mpr ⟨hmem, by simp [h, h1000]⟩, rfl⟩

theorem lookupKey_eq_some_of_mem {α : Type} (l : List (Symb × α)) (sym : Symb) (b : α)
    (hnd : (l.map Prod.fst).Nodup) (hmem : (sym, b) ∈ l) :
    lookupKey l sym = some b := by
  induction l with
  | nil => cases hmem
  | cons p t ih =>
    have hnd2 : (t.map Prod.fst).Nodup := (List.nodup_cons.mp (by simpa using hnd)).2
    have hnotin : p.1 ∉ t.map Prod.fst := (List.nodup_cons.mp (by simpa using hnd)).1
    rw [lookupKey_cons]
    rcases List.mem_cons.mp hmem with hh | hh
    · subst hh; simp
    · by_cases hp : p.1 = sym
      · exfalso
        apply hnotin
        rw [hp]
        exact List.mem_map.mpr ⟨(sym, b), hh, rfl⟩
      · rw [if_neg hp]
        exact ih hnd2 hh

theorem mem_unique_key {α : Type} (l : List (Symb × α)) (sym : Symb) (b1 b2 : α)
    (hnd : (l.map Prod.fst).Nodup) (h1 : (sym, b1) ∈ l) (h2 : (sym, b2) ∈ l) :
    b1 = b2 := by
  have e1 := lookupKey_eq_some_of_mem l sym b1 hnd h1
  have e2 := lookupKey_eq_some_of_mem l sym b2 hnd h2
  rw [e1] at e2
  exact Option.some.inj e2

theorem drop_not_mem_swap_keys (env : TickEnv) (buys : Buys) (sym : Symb)
    (hnd : (buys.map Prod.fst).Nodup) (hdrop : sym ∈ tokensToDropOf env buys) :
    sym ∉ (tokensToSwapOf env buys).map Prod.fst := by
  intro hsw
  rcases List.mem_map.mp hsw with ⟨e, he, hfst⟩
  rcases List.mem_filter.mp he with ⟨heb, hpe⟩
  rcases List.mem_map.mp hdrop with ⟨d, hd, hdfst⟩
  rcases List.mem_filter.mp hd with ⟨hdb, hpd⟩
  have heq : e.2 = d.2 := by
    have he2 : (sym, e.2) ∈ buys := by
      have hee : (e.1, e.2) ∈ buys := by simpa using heb
      rwa [hfst] at hee
    have hd2 : (sym, d.2) ∈ buys := by
      have hdd : (d.1, d.2) ∈ buys := by simpa using hdb
      rwa [hdfst] at hdd
    exact mem_unique_key buys sym e.2 d.2 hnd he2 hd2
  have hgt : pnlOf (cpOf env e.2) e.2.price > 1000 := by simpa using hpe
  have hlt : ¬ pnlOf (cpOf env d.2) d.2.price > 1000 := by
    have := of_decide_eq_true hpd
    exact this.1
  rw [heq] at hgt
  exact hlt hgt

/-! ## Event-order helper -/

/-- The prefix of the trace before the exit transaction is submitted. -/
def beforeSubmit (tr : List Event) : List Event :=
  tr.takeWhile (fun e => !(e == Event.txSubmit))

theorem beforeSubmit_cons_ne (a : Event) (t : List Event) (h : a ≠ Event.txSubmit) :
    beforeSubmit (a :: t) = a :: beforeSubmit t := by
  simp [beforeSubmit, List.takeWhile_cons, h]

theorem beforeSubmit_of_not_mem (tr : List Event) (h : Event.txSubmit ∉ tr) :
    beforeSubmit tr = tr := by
  induction tr with
  | nil => rfl
  | cons a t ih =>
    have ha : a ≠ Event.txSubmit := fun hh => h (by simp [hh])
    have ht : Event.txSubmit ∉ t := fun hh => h (by simp [hh])
    rw [beforeSubmit_cons_ne a t ha, ih ht]

theorem beforeSubmit_append (l1 l2 : List Event) (h : Event.txSubmit ∉ l1) :
    beforeSubmit (l1 ++ l2) = l1 ++ beforeSubmit l2 := by
  induction l1 with
  | nil => rfl
  | cons a t ih =>
    have ha : a ≠ Event.txSubmit := fun hh => h (by simp [hh])
    have ht : Event.txSubmit ∉ t := fun hh => h (by simp [hh])
    rw [List.cons_append, beforeSubmit_cons_ne a _ ha, ih ht, List.cons_append]

/-! ## Concrete scenarios used as witnesses and counterexamples -/

/-- Monitoring-mode entry scenario: reserves 100/50000, confidence 0.1. -/
def envC5 : BuyEnv := ⟨1, 7, 18, 100, 50000, 1/10, 0, none⟩

def logC5 : PairLog := ⟨1, 42, 77⟩

/-- Live-mode entry with confidence exactly 0. -/
def envC6 : BuyEnv := ⟨1, 7, 18, 100, 50000, 0, 0, some ⟨100, 5⟩⟩

/-- Entry event whose base token (token0 = 2) is not WETH (= 1). -/
def envC7 : BuyEnv := ⟨1, 7, 18, 100, 50000, 1/10, 0, none⟩

def logC7 : PairLog := ⟨2, 42, 77⟩

/-- Live-mode entry: confidence 1/2, signer balance 4, realized token
balance 8, token with 0 decimals. -/
def envC3 : BuyEnv := ⟨1, 7, 0, 1, 1, 1/2, 0, some ⟨4, 8⟩⟩

def logC3 : PairLog := ⟨1, 42, 77⟩

/-! ## Claim theorems: the `buy` handler -/

/-- C5: in monitoring mode (no signer), for every pair-created event that
passes the base-asset and sentiment gates, the handler records a position
with amount `10 ^ decimals` and entry price `reserve0 / reserve1`, and
never submits a transaction. -/
theorem monitoring_entry_records_unit_position (env : BuyEnv) (log : PairLog)
    (buys : Buys) (hs : env.signer = none) (hbase : log.token0 = env.weth)
    (hr : env.ratio ≠ 0) :
    (buyHandler env log buys).buys =
      insertKey buys env.tokenSymbol
        ⟨(env.reserve0 : ℚ) / (env.reserve1 : ℚ), 10 ^ env.decimals, env.now,
         log.token1, log.pair⟩ ∧
    lookupKey (buyHandler env log buys).buys env.tokenSymbol =
      some ⟨(env.reserve0 : ℚ) / (env.reserve1 : ℚ), 10 ^ env.decimals, env.now,
            log.token1, log.pair⟩ ∧
    (buyHandler env log buys).txSubmitted = false := by
  have hb : ¬ log.token0 ≠ env.weth := by simpa using hbase
  refine ⟨?_, ?_, ?_⟩
  · simp only [buyHandler, if_neg hb, if_neg hr, hs]
  · simp only [buyHandler, if_neg hb, if_neg hr, hs]
    exact lookupKey_insertKey_self _ _ _
  · simp only [buyHandler, if_neg hb, if_neg hr, hs]

/-- C5 witness: reserves 100/50000 give an entry price of 0.002 = 1/500 and
an amount of one decimal-adjusted unit, with no transaction. -/
theorem monitoring_entry_records_unit_position_witness :
    lookupKey (buyHandler envC5 logC5 []).buys envC5.tokenSymbol =
      some ⟨1/500, 10 ^ 18, 0, 42, 77⟩ ∧
    (buyHandler envC5 logC5 []).txSubmitted = false := by
  have h := monitoring_entry_records_unit_position envC5 logC5 [] rfl rfl
    (by norm_num [envC5])
  refine ⟨?_, h.2.2⟩
  rw [h.2.1]
  norm_num [envC5, logC5]

/-- C6: whenever the sentiment confidence is exactly 0, the handler records
no position, submits no transaction and returns nothing, in monitoring and
in live mode alike. -/
theorem zero_confidence_no_position (env : BuyEnv) (log : PairLog) (buys : Buys)
    (hr : env.ratio = 0) :
    (buyHandler env log buys).buys = buys ∧
    (buyHandler env log buys).txSubmitted = false ∧
    (buyHandler env log buys).ret = none := by
  by_cases hb : log.token0 ≠ env.weth
  · refine ⟨?_, ?_, ?_⟩ <;> simp only [buyHandler, if_pos hb]
  · refine ⟨?_, ?_, ?_⟩ <;> simp only [buyHandler, if_neg hb, if_pos hr]

/-- C6 witness: a live-mode event scoring exactly 0 leaves the store empty. -/
theorem zero_confidence_no_position_witness :
    (buyHandler envC6 logC5 []).buys = [] ∧
    (buyHandler envC6 logC5 []).txSubmitted = false ∧
    (buyHandler envC6 logC5 []).ret = none :=
  zero_confidence_no_position envC6 logC5 [] rfl

/-- C7: for every pair-created event whose base asset is not the configured
reference asset, the handler leaves the store unchanged, never calls the
sentiment model and never submits a transaction. -/
theorem wrong_base_no_effect (env : BuyEnv) (log : PairLog) (buys : Buys)
    (hbase : log.token0 ≠ env.weth) :
    buyHandler env log buys = ⟨buys, false, false, none⟩ := by
  simp only [buyHandler, if_pos hbase]

/-- C7 witness: an event with base token 2 (≠ WETH = 1) is a pure no-op. -/
theorem wrong_base_no_effect_witness :
    buyHandler envC7 logC7 [] = ⟨[], false, false, none⟩ :=
  wrong_base_no_effect envC7 logC7 [] (by norm_num [envC7, logC7])

/-- C3 as amended: after a successful live-mode entry the recorded position
has entryPrice = tokenBalance / 10^decimals / purchaseAmount and amount =
purchaseAmount (the committed base-asset wei), where purchaseAmount =
int(confidence × signer balance) and tokenBalance is the counter-asset
balance observed after the swap. -/
theorem live_entry_records_realized_price (env : BuyEnv) (log : PairLog)
    (buys : Buys) (s : BuySigner) (hs : env.signer = some s)
    (hbase : log.token0 = env.weth) (hr : env.ratio ≠ 0) :
    lookupKey (buyHandler env log buys).buys env.tokenSymbol =
      some ⟨(s.postTokenBalance : ℚ) / (10 : ℚ) ^ env.decimals /
              (pyInt (env.ratio * (s.balance : ℚ)) : ℚ),
            pyInt (env.ratio * (s.balance : ℚ)), env.now, log.token1, log.pair⟩ ∧
    (buyHandler env log buys).txSubmitted = true := by
  have hb : ¬ log.token0 ≠ env.weth := by simpa using hbase
  refine ⟨?_, ?_⟩
  · simp only [buyHandler, if_neg hb, if_neg hr, hs]
    exact lookupKey_insertKey_self _ _ _
  · simp only [buyHandler, if_neg hb, if_neg hr, hs]

/-- C3 counterexample: with confidence 1/2, signer balance 4 (so
purchaseAmount = 2), decimals 0 and a realized token balance of 8, the
recorded position has entryPrice 4 = tokenBalance / 10^decimals /
purchaseAmount — not purchaseAmount / balanceDelta = 2/8 = 1/4 — and
amount 2 (the base-asset wei spent), not the 8 counter-asset units
acquired. -/
theorem live_entry_price_cex :
    lookupKey (buyHandler envC3 logC3 []).buys envC3.tokenSymbol =
      some ⟨4, 2, 0, 42, 77⟩ ∧
    ¬ ((4 : ℚ) = (2 : ℚ) / (8 : ℚ)) ∧ ¬ ((2 : ℤ) = (8 : ℤ)) := by
  refine ⟨?_, by norm_num, by norm_num⟩
  simp only [envC3, logC3]
  norm_num [buyHandler, insertKey, lookupKey, List.find?, pyInt]

/-- C3 amended witness: the concrete live entry records price 4 and amount 2. -/
theorem live_entry_records_realized_price_witness :
    lookupKey (buyHandler envC3 logC3 []).buys envC3.tokenSymbol =
      some ⟨4, 2, 0, 42, 77⟩ ∧
    (buyHandler envC3 logC3 []).txSubmitted = true := by
  have h := live_entry_records_realized_price envC3 logC3 [] ⟨4, 8⟩ rfl rfl
    (by norm_num [envC3])
  refine ⟨?_, h.2⟩
  rw [h.1]
  norm_num [envC3, logC3, pyInt]

/-! ## Branch corollaries of `pnlHandler` -/

theorem pnlHandler_live_swap_buys (env : TickEnv) (buys : Buys) (s : TickSigner)
    (hne : buys ≠ []) (hs : env.signer = some s)
    (hswne : tokensToSwapOf env buys ≠ []) :
    (pnlHandler env buys).buys =
      ((tokensToSwapOf env buys).map Prod.fst).foldl popKey
        ((tokensToDropOf env buys).foldl popKey buys) := by
  rw [pnlHandler_live_swap env buys s hne hs hswne]
  exact swapFold_buys s _ _

theorem pnlHandler_live_swap_trace (env : TickEnv) (buys : Buys) (s : TickSigner)
    (hne : buys ≠ []) (hs : env.signer = some s)
    (hswne : tokensToSwapOf env buys ≠ []) :
    (pnlHandler env buys).trace =
      ((Event.oracleRead :: (tokensToDropOf env buys).map Event.dropRemoved) ++
        ((tokensToSwapOf env buys).map (stepEvents s)).flatten) ++ [Event.txSubmit] := by
  rw [pnlHandler_live_swap env buys s hne hs hswne]
  show ((tokensToSwapOf env buys).foldl (swapStep s) _).trace ++ [Event.txSubmit] = _
  rw [swapFold_trace]

theorem pnlHandler_live_swap_ret_failed (env : TickEnv) (buys : Buys) (s : TickSigner)
    (hne : buys ≠ []) (hs : env.signer = some s)
    (hswne : tokensToSwapOf env buys ≠ []) (hf : s.txFailed = true) :
    (pnlHandler env buys).ret = Except.error () := by
  rw [pnlHandler_live_swap env buys s hne hs hswne]
  simp [hf]

theorem pnlHandler_live_swap_ret_ok (env : TickEnv) (buys : Buys) (s : TickSigner)
    (hne : buys ≠ []) (hs : env.signer = some s)
    (hswne : tokensToSwapOf env buys ≠ []) (hf : s.txFailed = false) :
    (pnlHandler env buys).ret =
      Except.ok (some
        ((((tokensToSwapOf env buys).filter
            (fun e => !(s.balanceOf e.2.tokenAddress == 0))).map Prod.fst).foldl
          popKey (currentPricesOf env buys))) := by
  rw [pnlHandler_live_swap env buys s hne hs hswne]
  simp only [hf, if_false, Bool.false_eq_true]
  show Except.ok (some ((tokensToSwapOf env buys).foldl (swapStep s) _).prices) = _
  rw [swapFold_prices]

/-! ## Shared drop-removal helpers -/

/-- Any symbol classified for drop is absent from the store after the tick,
in every execution mode. -/
theorem drop_removed_from_store (env : TickEnv) (buys : Buys) (sym : Symb)
    (hne : buys ≠ []) (hdropmem : sym ∈ tokensToDropOf env buys) :
    lookupKey (pnlHandler env buys).buys sym = none := by
  have hb1 : lookupKey ((tokensToDropOf env buys).foldl popKey buys) sym = none :=
    lookupKey_foldPop_of_mem _ _ _ hdropmem
  cases hsig : env.signer with
  | none =>
    rw [pnlHandler_monitoring env buys hne hsig]
    exact hb1
  | some s =>
    by_cases hsw : tokensToSwapOf env buys = []
    · rw [pnlHandler_live_noswap env buys s hne hsig hsw]
      exact hb1
    · rw [pnlHandler_live_swap_buys env buys s hne hsig hsw]
      exact lookupKey_foldPop_of_none _ _ _ hb1

/-- Any symbol classified for drop has its removal event in the trace prefix
that precedes the exit-transaction submission (if any). -/
theorem drop_event_before_submit (env : TickEnv) (buys : Buys) (sym : Symb)
    (hne : buys ≠ []) (hdropmem : sym ∈ tokensToDropOf env buys) :
    Event.dropRemoved sym ∈ beforeSubmit (pnlHandler env buys).trace := by
  have hmem1 : Event.dropRemoved sym ∈
      Event.oracleRead :: (tokensToDropOf env buys).map Event.dropRemoved := by
    exact List.mem_cons_of_mem _ (List.mem_map.mpr ⟨sym, hdropmem, rfl⟩)
  cases hsig : env.signer with
  | none =>
    rw [pnlHandler_monitoring env buys hne hsig]
    rw [beforeSubmit_of_not_mem _ (by simp)]
    exact hmem1
  | some s =>
    by_cases hsw : tokensToSwapOf env buys = []
    · rw [pnlHandler_live_noswap env buys s hne hsig hsw]
      rw [beforeSubmit_of_not_mem _ (by simp)]
      exact hmem1
    · rw [pnlHandler_live_swap_trace env buys s hne hsig hsw]
      have hnot : Event.txSubmit ∉
          (Event.oracleRead :: (tokensToDropOf env buys).map Event.dropRemoved) ++
            ((tokensToSwapOf env buys).map (stepEvents s)).flatten := by
        intro hx
        rcases List.mem_append.mp hx with hx1 | hx2
        · simp at hx1
        · exact txSubmit_not_mem_flatten s _ hx2
      rw [beforeSubmit_append _ _ hnot]
      exact List.mem_append_left _ (List.mem_append_left _ hmem1)

/-! ## Counting the pop events -/

theorem count_swapPopped_stepEvents (s : TickSigner) (e : Symb × Buy) (sym : Symb) :
    (stepEvents s e).count (Event.swapPopped sym) = if sym = e.1 then 1 else 0 := by
  simp only [stepEvents]
  by_cases hb : s.balanceOf e.2.tokenAddress = 0
  · rw [if_pos hb]
    by_cases h : sym = e.1
    · subst h; simp [List.count_cons]
    · simp [List.count_cons, h, Ne.symm h]
  · rw [if_neg hb]
    by_cases ha : s.allowance e.2.pairAddress < s.balanceOf e.2.tokenAddress
    · rw [if_pos ha]
      by_cases h : sym = e.1
      · subst h; simp [List.count_append, List.count_cons]
      · simp [List.count_append, List.count_cons, h, Ne.symm h]
    · rw [if_neg ha]
      by_cases h : sym = e.1
      · subst h; simp [List.count_append, List.count_cons]
      · simp [List.count_append, List.count_cons, h, Ne.symm h]

theorem count_swapPopped_flatten (s : TickSigner) (l : Buys) (sym : Symb) :
    ((l.map (stepEvents s)).flatten).count (Event.swapPopped sym) =
      (l.map Prod.fst).count sym := by
  induction l with
  | nil => rfl
  | cons e t ih =>
    rw [List.map_cons, List.flatten_cons, List.count_append, ih,
      List.map_cons, List.count_cons, count_swapPopped_stepEvents]
    by_cases h : sym = e.1
    · simp [h, Nat.add_comm]
    · have h2 : ¬ e.1 = sym := fun hh => h hh.symm
      simp [h, h2]

theorem count_swapPopped_trace (env : TickEnv) (buys : Buys) (s : TickSigner)
    (sym : Symb) (hne : buys ≠ []) (hs : env.signer = some s)
    (hswne : tokensToSwapOf env buys ≠ []) (hnd : (buys.map Prod.fst).Nodup)
    (hmemk : sym ∈ (tokensToSwapOf env buys).map Prod.fst) :
    ((pnlHandler env buys).trace).count (Event.swapPopped sym) = 1 := by
  rw [pnlHandler_live_swap_trace env buys s hne hs hswne]
  rw [List.count_append, List.count_append]
  have h1 : (Event.oracleRead ::
      (tokensToDropOf env buys).map Event.dropRemoved).count (Event.swapPopped sym)
      = 0 := by
    rw [List.count_eq_zero]
    simp
  have h3 : ([Event.txSubmit] : List Event).count (Event.swapPopped sym) = 0 := by
    rw [List.count_eq_zero]
    simp
  rw [count_swapPopped_flatten, h1, h3]
  have hnd2 : ((tokensToSwapOf env buys).map Prod.fst).Nodup := by
    apply List.Nodup.sublist _ hnd
    exact List.Sublist.map _ (List.filter_sublist _)
  rw [List.count_eq_one_of_mem hnd2 hmemk]

/-! ## Tick scenarios -/

/-- Position bought at price 0.002 = 1/500 (token address 42, pair 77). -/
def bLow : Buy := ⟨1/500, 10 ^ 18, 0, 42, 77⟩

/-- Monitoring-mode tick: every pair reports reserves 2200/1000, that is a
current price of 2.2 and a pnl of 1099 for `bLow`. -/
def envTickMon : TickEnv := ⟨fun _ => (2200, 1000), none⟩

def buysOne : Buys := [(5, bLow)]

/-- Monitoring-mode tick where the pool has crashed: reserves 1/100000,
that is a current price of 0.00001. -/
def envTickCrash : TickEnv := ⟨fun _ => (1, 100000), none⟩

/-- Live signer holding 10 units of every token, zero allowances, whose
exit transaction succeeds. -/
def sigLive : TickSigner := ⟨fun _ => 10, fun _ => 0, false⟩

/-- Live tick with a runaway winner. -/
def envTickLive : TickEnv := ⟨fun _ => (2200, 1000), some sigLive⟩

/-- Live signer whose exit transaction fails. -/
def sigFail : TickSigner := ⟨fun _ => 10, fun _ => 0, true⟩

def envTickFail : TickEnv := ⟨fun _ => (2200, 1000), some sigFail⟩

/-! ## Claim theorems: the `pnl` handler -/

/-- C1 as amended: on a tick every open position's pnl is computed as
(currentPrice - entryPrice) / entryPrice and every position with
pnl > 1000.0 enters the profit-take set; when a signer is configured that
position is popped from the store exactly once during the tick.  (In
monitoring mode — see the counterexample — profit-take positions are NOT
removed.) -/
theorem profit_take_removed_once_live (env : TickEnv) (buys : Buys) (s : TickSigner)
    (sym : Symb) (b : Buy) (hs : env.signer = some s)
    (hnd : (buys.map Prod.fst).Nodup) (hmem : (sym, b) ∈ buys)
    (hpnl : pnlOf (cpOf env b) b.price > 1000) :
    (sym, b) ∈ tokensToSwapOf env buys ∧
    lookupKey (pnlHandler env buys).buys sym = none ∧
    ((pnlHandler env buys).trace).count (Event.swapPopped sym) = 1 := by
  have hsw := mem_tokensToSwapOf env buys sym b hmem hpnl
  have hne : buys ≠ [] := List.ne_nil_of_mem hmem
  have hswne : tokensToSwapOf env buys ≠ [] := List.ne_nil_of_mem hsw
  have hmemk : sym ∈ (tokensToSwapOf env buys).map Prod.fst :=
    List.mem_map.mpr ⟨(sym, b), hsw, rfl⟩
  refine ⟨hsw, ?_, ?_⟩
  · rw [pnlHandler_live_swap_buys env buys s hne hs hswne]
    exact lookupKey_foldPop_of_mem _ _ _ hmemk
  · exact count_swapPopped_trace env buys s sym hne hs hswne hnd hmemk

/-- C1 witness: in live mode the runaway position (pnl 1099) is selected
and removed exactly once. -/
theorem profit_take_removed_once_live_witness :
    (5, bLow) ∈ tokensToSwapOf envTickLive buysOne ∧
    lookupKey (pnlHandler envTickLive buysOne).buys 5 = none ∧
    ((pnlHandler envTickLive buysOne).trace).count (Event.swapPopped 5) = 1 := by
  apply profit_take_removed_once_live envTickLive buysOne sigLive 5 bLow rfl
    (by simp [buysOne]) (by simp [buysOne])
  norm_num [pnlOf, cpOf, envTickLive, bLow]

/-- C1 counterexample: in monitoring mode (no signer) a position with
pnl = 1099 > 1000 is in the profit-take set yet the store is unchanged
after the tick — the position is not removed at all, refuting the
unconditional "removed exactly once per tick". -/
theorem profit_take_not_removed_monitoring_cex :
    pnlOf (cpOf envTickMon bLow) bLow.price = 1099 ∧
    (5, bLow) ∈ tokensToSwapOf envTickMon buysOne ∧
    (pnlHandler envTickMon buysOne).buys = buysOne := by
  have hpnl : pnlOf (cpOf envTickMon bLow) bLow.price = 1099 := by
    norm_num [pnlOf, cpOf, envTickMon, bLow]
  refine ⟨hpnl, ?_, ?_⟩
  · exact mem_tokensToSwapOf _ _ _ _ (by simp [buysOne]) (by rw [hpnl]; norm_num)
  · have hgt : pnlOf (cpOf envTickMon bLow) bLow.price > 1000 := by
      rw [hpnl]
      norm_num
    have hdrop : tokensToDropOf envTickMon buysOne = [] := by
      simp [tokensToDropOf, buysOne, List.filter_cons, hgt]
    rw [pnlHandler_monitoring envTickMon buysOne (by simp [buysOne]) rfl, hdrop]
    rfl

/-- C2 as amended: for an open position with entryPrice 0.002, a tick
reporting currentPrice 0.00001 yields pnl = -0.995, and -0.995 < 99.0 is
true, so the position IS marked for drop and removed from the store on
that tick. -/
theorem rug_drop_fires_at_crashed_price (env : TickEnv) (buys : Buys) (sym : Symb)
    (b : Buy) (hmem : (sym, b) ∈ buys) (hprice : b.price = 1/500)
    (hres : env.reserves b.pairAddress = (1, 100000)) :
    pnlOf (cpOf env b) b.price = -(199/200) ∧
    pnlOf (cpOf env b) b.price < 99 ∧
    sym ∈ tokensToDropOf env buys ∧
    lookupKey (pnlHandler env buys).buys sym = none := by
  have hcp : cpOf env b = 1/100000 := by
    simp only [cpOf, hres]
    norm_num
  have hpnl : pnlOf (cpOf env b) b.price = -(199/200) := by
    rw [pnlOf, hcp, hprice]
    norm_num
  have hlt : pnlOf (cpOf env b) b.price < 99 := by
    rw [hpnl]
    norm_num
  have hmemd := mem_tokensToDropOf env buys sym b hmem hlt
  exact ⟨hpnl, hlt, hmemd,
    drop_removed_from_store env buys sym (List.ne_nil_of_mem hmem) hmemd⟩

/-- C2 amended witness: the concrete crashed tick drops and removes the
position. -/
theorem rug_drop_fires_at_crashed_price_witness :
    pnlOf (cpOf envTickCrash bLow) bLow.price = -(199/200) ∧
    pnlOf (cpOf envTickCrash bLow) bLow.price < 99 ∧
    (5 : Symb) ∈ tokensToDropOf envTickCrash buysOne ∧
    lookupKey (pnlHandler envTickCrash buysOne).buys 5 = none :=
  rug_drop_fires_at_crashed_price envTickCrash buysOne 5 bLow
    (by simp [buysOne]) rfl rfl

/-- C2 counterexample: the claim asserts pnl ≈ -0.995 does NOT satisfy
pnl < 99.0 and the position stays; in fact -0.995 < 99 holds, the position
is marked for drop, and the store is emptied on that tick. -/
theorem rug_threshold_comparison_cex :
    pnlOf (cpOf envTickCrash bLow) bLow.price = -(199/200) ∧
    pnlOf (cpOf envTickCrash bLow) bLow.price < 99 ∧
    (5 : Symb) ∈ tokensToDropOf envTickCrash buysOne ∧
    (pnlHandler envTickCrash buysOne).buys = [] := by
  have hpnl : pnlOf (cpOf envTickCrash bLow) bLow.price = -(199/200) := by
    norm_num [pnlOf, cpOf, envTickCrash, bLow]
  have hlt : pnlOf (cpOf envTickCrash bLow) bLow.price < 99 := by
    rw [hpnl]
    norm_num
  have hmemd : (5 : Symb) ∈ tokensToDropOf envTickCrash buysOne :=
    mem_tokensToDropOf _ _ _ _ (by simp [buysOne]) hlt
  refine ⟨hpnl, hlt, hmemd, ?_⟩
  have hle : pnlOf (cpOf envTickCrash bLow) bLow.price ≤ 1000 := by
    rw [hpnl]
    norm_num
  have hdrop : tokensToDropOf envTickCrash buysOne = [5] := by
    simp [tokensToDropOf, buysOne, List.filter_cons, hle, hlt]
  rw [pnlHandler_monitoring envTickCrash buysOne (by simp [buysOne]) rfl, hdrop]
  simp [popKey, buysOne]

/-- C4: every open position with pnl < 99.0 on a tick is removed from the
store during that tick — signer configured or not — and its removal event
lies strictly before any exit-transaction submission in the trace. -/
theorem rug_drop_removed_before_submit (env : TickEnv) (buys : Buys) (sym : Symb)
    (b : Buy) (hmem : (sym, b) ∈ buys) (hpnl : pnlOf (cpOf env b) b.price < 99) :
    lookupKey (pnlHandler env buys).buys sym = none ∧
    Event.dropRemoved sym ∈ beforeSubmit (pnlHandler env buys).trace := by
  have hmemd := mem_tokensToDropOf env buys sym b hmem hpnl
  have hne : buys ≠ [] := List.ne_nil_of_mem hmem
  exact ⟨drop_removed_from_store env buys sym hne hmemd,
         drop_event_before_submit env buys sym hne hmemd⟩

/-- C4 witness: with no signer configured, the crashed position is removed
and its removal event precedes any submission. -/
theorem rug_drop_removed_before_submit_witness :
    lookupKey (pnlHandler envTickCrash buysOne).buys 5 = none ∧
    Event.dropRemoved 5 ∈ beforeSubmit (pnlHandler envTickCrash buysOne).trace := by
  apply rug_drop_removed_before_submit envTickCrash buysOne 5 bLow (by simp [buysOne])
  norm_num [pnlOf, cpOf, envTickCrash, bLow]

/-- C8 as amended: invoking the tick handler with an empty store is a
no-op: the store stays empty, no external call happens (empty event trace)
and the handler returns None — not an empty price map. -/
theorem empty_store_noop (env : TickEnv) :
    pnlHandler env [] = ⟨[], [], Except.ok none⟩ := by
  simp [pnlHandler]

/-- C8 counterexample: on an empty store the handler returns None (a bare
`return`), which differs from an empty price map. -/
theorem empty_store_ret_cex :
    (pnlHandler ⟨fun _ => (0, 0), none⟩ []).ret ≠
      Except.ok (some ([] : List (Symb × ℚ))) := by
  simp [pnlHandler]

/-- C9: whenever the batched exit transaction was submitted and failed, the
tick handler raises (`Except.error`) and never reports a successful
result for that tick. -/
theorem failed_exit_propagates (env : TickEnv) (buys : Buys) (s : TickSigner)
    (hs : env.signer = some s) (hf : s.txFailed = true)
    (hsub : Event.txSubmit ∈ (pnlHandler env buys).trace) :
    (pnlHandler env buys).ret = Except.error () ∧
    ∀ m, (pnlHandler env buys).ret ≠ Except.ok m := by
  by_cases hne : buys = []
  · exfalso
    subst hne
    simp [pnlHandler] at hsub
  · by_cases hsw : tokensToSwapOf env buys = []
    · exfalso
      rw [pnlHandler_live_noswap env buys s hne hs hsw] at hsub
      simp at hsub
    · have hret := pnlHandler_live_swap_ret_failed env buys s hne hs hsw hf
      refine ⟨hret, ?_⟩
      intro m hm
      rw [hret] at hm
      exact Except.noConfusion hm

/-- C9 witness: a failing exit transaction on the runaway position makes
the tick raise. -/
theorem failed_exit_propagates_witness :
    (pnlHandler envTickFail buysOne).ret = Except.error () ∧
    ∀ m, (pnlHandler envTickFail buysOne).ret ≠ Except.ok m := by
  have hswmem : (5, bLow) ∈ tokensToSwapOf envTickFail buysOne :=
    mem_tokensToSwapOf _ _ _ _ (by simp [buysOne])
      (by norm_num [pnlOf, cpOf, envTickFail, bLow])
  have hswne := List.ne_nil_of_mem hswmem
  apply failed_exit_propagates envTickFail buysOne sigFail rfl rfl
  rw [pnlHandler_live_swap_trace envTickFail buysOne sigFail
    (by simp [buysOne]) rfl hswne]
  simp

/-- C10: in live mode, with at least one profit-take position and a
successful exit transaction, the returned price map omits every symbol
whose sell swap was appended to the plan, while dropped symbols and
profit-take symbols skipped for a zero held balance stay in the returned
map with their computed current prices. -/
theorem returned_prices_omit_swapped (env : TickEnv) (buys : Buys) (s : TickSigner)
    (hs : env.signer = some s) (hf : s.txFailed = false)
    (hnd : (buys.map Prod.fst).Nodup)
    (hswne : tokensToSwapOf env buys ≠ []) :
    ∃ m, (pnlHandler env buys).ret = Except.ok (some m) ∧
      (∀ sym, Event.planAppended sym ∈ (pnlHandler env buys).trace →
        lookupKey m sym = none) ∧
      (∀ sym b, (sym, b) ∈ buys → sym ∈ tokensToDropOf env buys →
        lookupKey m sym = some (cpOf env b)) ∧
      (∀ sym b, (sym, b) ∈ tokensToSwapOf env buys →
        s.balanceOf b.tokenAddress = 0 → lookupKey m sym = some (cpOf env b)) := by
  have hne : buys ≠ [] := by
    intro h
    rw [h] at hswne
    exact hswne rfl
  refine ⟨_, pnlHandler_live_swap_ret_ok env buys s hne hs hswne hf, ?_, ?_, ?_⟩
  · intro sym hplan
    rw [pnlHandler_live_swap_trace env buys s hne hs hswne] at hplan
    have hmemF : sym ∈ ((tokensToSwapOf env buys).filter
        (fun e => !(s.balanceOf e.2.tokenAddress == 0))).map Prod.fst := by
      rcases List.mem_append.mp hplan with h1 | h2
      · rcases List.mem_append.mp h1 with h11 | h12
        · exfalso
          simp at h11
        · exact (planAppended_mem_flatten s _ sym).mp h12
      · exfalso
        simp at h2
    exact lookupKey_foldPop_of_mem _ _ _ hmemF
  · intro sym b hmem hdropmem
    have hnotF : sym ∉ ((tokensToSwapOf env buys).filter
        (fun e => !(s.balanceOf e.2.tokenAddress == 0))).map Prod.fst := by
      intro hF
      apply drop_not_mem_swap_keys env buys sym hnd hdropmem
      rcases List.mem_map.mp hF with ⟨e, heF, hfst⟩
      exact List.mem_map.mpr ⟨e, List.mem_of_mem_filter heF, hfst⟩
    rw [lookupKey_foldPop_of_not_mem _ _ _ hnotF]
    exact lookupKey_map_of_mem buys sym b (cpOf env) hnd hmem
  · intro sym b hswmem hbal
    have hmemb : (sym, b) ∈ buys := List.mem_of_mem_filter hswmem
    have hnotF : sym ∉ ((tokensToSwapOf env buys).filter
        (fun e => !(s.balanceOf e.2.tokenAddress == 0))).map Prod.fst := by
      intro hF
      rcases List.mem_map.mp hF with ⟨e, heF, hfst⟩
      rcases List.mem_filter.mp heF with ⟨hesw, hbe⟩
      have hemem : (sym, e.2) ∈ buys := by
        have hee : (e.1, e.2) ∈ buys := by
          simpa using List.mem_of_mem_filter hesw
        rwa [hfst] at hee
      have heq : e.2 = b := mem_unique_key buys sym e.2 b hnd hemem hmemb
      rw [heq] at hbe
      simp [hbal] at hbe
    rw [lookupKey_foldPop_of_not_mem _ _ _ hnotF]
    exact lookupKey_map_of_mem buys sym b (cpOf env) hnd hmemb

/-! Mixed live scenario for the C10 witness: position 5 is sold (pnl 1099,
balance 5), position 6 is dropped (pnl -0.995), position 9 is profit-take
but skipped for zero balance. -/

def bA : Buy := ⟨1/500, 1, 0, 100, 200⟩

def bB : Buy := ⟨1/500, 1, 0, 101, 201⟩

def bCz : Buy := ⟨1/500, 1, 0, 102, 202⟩

def sigMix : TickSigner := ⟨fun a => if a = 102 then 0 else 5, fun _ => 0, false⟩

def envTickMix : TickEnv :=
  ⟨fun a => if a = 201 then (1, 100000) else (2200, 1000), some sigMix⟩

def buysMix : Buys := [(5, bA), (6, bB), (9, bCz)]

/-- C10 witness: the mixed scenario satisfies all three parts of the
returned-price-map claim. -/
theorem returned_prices_omit_swapped_witness :
    ∃ m, (pnlHandler envTickMix buysMix).ret = Except.ok (some m) ∧
      (∀ sym, Event.planAppended sym ∈ (pnlHandler envTickMix buysMix).trace →
        lookupKey m sym = none) ∧
      (∀ sym b, (sym, b) ∈ buysMix → sym ∈ tokensToDropOf envTickMix buysMix →
        lookupKey m sym = some (cpOf envTickMix b)) ∧
      (∀ sym b, (sym, b) ∈ tokensToSwapOf envTickMix buysMix →
        sigMix.balanceOf b.tokenAddress = 0 →
        lookupKey m sym = some (cpOf envTickMix b)) := by
  apply returned_prices_omit_swapped envTickMix buysMix sigMix rfl rfl
    (by simp [buysMix])
  have hmem : (5, bA) ∈ tokensToSwapOf envTickMix buysMix :=
    mem_tokensToSwapOf _ _ _ _ (by simp [buysMix])
      (by norm_num [pnlOf, cpOf, envTickMix, bA])
  exact List.ne_nil_of_mem hmem
